import Mathlib

/-!
Shallow embedding of src/btc_forwarder.py: the monitoring loop
(monitor_wallet, lines 106-182), the fee computation
(calculate_transaction_fee, lines 184-220) and the send wrapper
(forward_funds, lines 222-265).

Amounts are exact Python integers, modelled by Int.  The floating point
fee arithmetic is modelled exactly over the rationals; Python int()
truncates toward zero.  External effects are supplied as oracles: the
per-cycle fee service samples (none when service.estimatefee raises) and
the per-cycle send results (false when wallet.send_to raises, which
forward_funds catches at lines 262-265, returning None).  Every action
of the loop is recorded in an event trace so that claims about sends,
fee quotes and ledger records can be stated.
-/

namespace BtcForwarder

/-- Python int() applied to an exact rational: truncation toward zero. -/
def pyTrunc (q : ℚ) : Int := q.num.tdiv (q.den : Int)

/-- Body of the try block of calculate_transaction_fee, lines 191-216:
if the raw sample exceeds 0.1 BTC/KB substitute the fallback rate 0.0001
(lines 196-198), convert to satoshis for an assumed 250-byte transaction
(lines 200-203), cap the result at 25000 satoshis (lines 205-209), then
raise it to at least 1000 satoshis (lines 211-213). -/
def computeFeeFromRate (fee_per_kb : ℚ) : Int :=
  let r : ℚ := if fee_per_kb > 1/10 then 1/10000 else fee_per_kb
  let raw : Int := pyTrunc (r * 100000000 * 250 / 1024)
  let capped : Int := if raw > 25000 then 25000 else raw
  max capped 1000

/-- calculate_transaction_fee, lines 184-220.  The sample is none when
service.estimatefee raised; the except branch (lines 217-220) then
returns the conservative default of 10000 satoshis. -/
def calculate_transaction_fee (sample : Option ℚ) : Int :=
  match sample with
  | some fee_per_kb => computeFeeFromRate fee_per_kb
  | none => 10000

/-- The forwarding decision of lines 159-170 (the spec calls it decide):
forward value minus fee when the value strictly exceeds the fee,
otherwise skip the output as too small. -/
inductive Decision where
  | forward (amount : Int)
  | skipTooSmall
deriving DecidableEq

/-- The branch condition of line 159 and the amount of line 160. -/
def decideForward (value fee : Int) : Decision :=
  if value > fee then Decision.forward (value - fee) else Decision.skipTooSmall

/-- One element of wallet.utxos() as read by lines 131-142.  The loop
extracts the transaction id, the confirmation count and the value; the
output index (vout) exists on the output but is never read by the loop.
malformed models an output for which both extraction shapes raise, so
the exception propagates to the handler at line 178. -/
inductive RawUtxo where
  | ok (txid : String) (vout : ℕ) (value : Int) (confirmations : Int)
  | malformed
deriving DecidableEq

/-- Observable actions of the loop: a call to calculate_transaction_fee
(line 156) with the fee it returned, a send attempt through forward_funds
(line 165) with its outcome, an addition to processed_txs (lines 166 and
170), the too-small warning of line 168, and the handler of line 178. -/
inductive Event where
  | feeQuote (fee : Int)
  | send (txid : String) (vout : ℕ) (amount : Int) (fee : Int) (ok : Bool)
  | record (txid : String)
  | skipSmall (txid : String)
  | cycleError
deriving DecidableEq

/-- Mutable data of one poll cycle: the processed_txs set (line 123,
as a list of transaction ids), the trace of this cycle, and counters
matching how many fee service calls and send attempts happened so far
in the cycle (to index the oracles). -/
structure CycleAcc where
  processed : List String
  events : List Event
  feeIdx : ℕ
  sendIdx : ℕ
deriving DecidableEq

/-- External behaviour during one poll cycle: whether the refresh of
lines 128-131 succeeds, the list wallet.utxos() returned, the fee
service outcome of the k-th calculate_transaction_fee call, and the
outcome of the k-th send attempt. -/
structure CycleInput where
  scanOk : Bool
  utxos : List RawUtxo
  feeSamples : ℕ → Option ℚ
  sendOk : ℕ → Bool

/-- Persistent state of monitor_wallet across cycles: the processed_txs
set and the cumulative event trace. -/
structure MonState where
  processed : List String
  events : List Event
deriving DecidableEq

/-- The loop body for one utxo, lines 131-170.  Malformed outputs raise
(Except.error), aborting the rest of the cycle while keeping the set
mutations already made.  Otherwise: skip ids already in processed_txs
(line 145); below the confirmation threshold do nothing (line 154 has no
else branch); else compute the fee (line 156), decide (line 159), on
forward attempt the send and add the id to processed_txs unconditionally
(lines 165-166, forward_funds never raises), on skip warn and add the id
(lines 168-170). -/
def stepUtxo (required : Int) (feeS : ℕ → Option ℚ) (sendS : ℕ → Bool)
    (a : CycleAcc) (u : RawUtxo) : Except CycleAcc CycleAcc :=
  match u with
  | RawUtxo.malformed => Except.error a
  | RawUtxo.ok txid vout value conf =>
    if txid ∈ a.processed then Except.ok a
    else if conf ≥ required then
      let fee := calculate_transaction_fee (feeS a.feeIdx)
      let a1 : CycleAcc := { a with feeIdx := a.feeIdx + 1,
                                    events := a.events ++ [Event.feeQuote fee] }
      match decideForward value fee with
      | Decision.forward amount =>
        let sendRes := sendS a1.sendIdx
        let a2 : CycleAcc := { a1 with
          sendIdx := a1.sendIdx + 1,
          events := a1.events ++ [Event.send txid vout amount fee sendRes] }
        Except.ok { a2 with processed := txid :: a2.processed,
                            events := a2.events ++ [Event.record txid] }
      | Decision.skipTooSmall =>
        Except.ok { a1 with processed := txid :: a1.processed,
                            events := a1.events ++ [Event.skipSmall txid, Event.record txid] }
    else Except.ok a

/-- The for loop of line 131, folded over the utxo list; an error aborts
the remaining iterations but keeps the accumulator reached so far. -/
def foldUtxos (required : Int) (feeS : ℕ → Option ℚ) (sendS : ℕ → Bool) :
    CycleAcc → List RawUtxo → Except CycleAcc CycleAcc
  | a, [] => Except.ok a
  | a, u :: us =>
    match stepUtxo required feeS sendS a u with
    | Except.ok a2 => foldUtxos required feeS sendS a2 us
    | Except.error a2 => Except.error a2

/-- One iteration of the while loop, lines 125-182.  A failing refresh
(wallet.scan or wallet.utxos) reaches the handler before any output is
processed; a mid-cycle exception keeps the records already added.  In
both cases a cycleError event marks the logging of line 179, and the
loop continues with the next cycle. -/
def runCycle (required : Int) (st : MonState) (inp : CycleInput) : MonState :=
  if inp.scanOk then
    match foldUtxos required inp.feeSamples inp.sendOk
        ⟨st.processed, [], 0, 0⟩ inp.utxos with
    | Except.ok a => ⟨a.processed, st.events ++ a.events⟩
    | Except.error a => ⟨a.processed, st.events ++ a.events ++ [Event.cycleError]⟩
  else ⟨st.processed, st.events ++ [Event.cycleError]⟩

/-- The while loop of monitor_wallet run over a finite schedule of cycle
inputs. -/
def runMonitor (required : Int) : MonState → List CycleInput → MonState
  | st, [] => st
  | st, c :: cs => runMonitor required (runCycle required st c) cs

/-- State at entry of the while loop: processed_txs empty (line 123). -/
def initState : MonState := ⟨[], []⟩

/-- Accumulator carried out of the loop, whether it finished normally or
by the exception path. -/
def accOf : Except CycleAcc CycleAcc → CycleAcc
  | Except.ok a => a
  | Except.error a => a

/-- True on send events bearing the given transaction id. -/
def isSendTx (t : String) : Event → Bool
  | Event.send t1 _ _ _ _ => t1 == t
  | _ => false

/-- True on send events bearing the given output id (txid, vout). -/
def isSendOut (t : String) (v : ℕ) : Event → Bool
  | Event.send t1 v1 _ _ _ => t1 == t && v1 == v
  | _ => false

/-- True on ledger record events bearing the given transaction id. -/
def isRecordTx (t : String) : Event → Bool
  | Event.record t1 => t1 == t
  | _ => false

/-- Ledger invariant tying the trace to the processed_txs set: per
transaction id at most one send attempt and at most one ledger record
ever appear in the trace, and as soon as one appears the id is in the
set. -/
def LedgerInv (processed : List String) (es : List Event) : Prop :=
  ∀ t, es.countP (isSendTx t) ≤ 1 ∧ es.countP (isRecordTx t) ≤ 1 ∧
    (1 ≤ es.countP (isSendTx t) → t ∈ processed) ∧
    (1 ≤ es.countP (isRecordTx t) → t ∈ processed)

/-- Cycle input for the failed-send scenario: one confirmed output,
a failing fee service (default fee 10000) and a failing send. -/
def inpC1 : CycleInput :=
  { scanOk := true
    utxos := [RawUtxo.ok "a" 0 100000 3]
    feeSamples := fun _ => none
    sendOk := fun _ => false }

/-- Cycle input with two distinct outputs of one transaction, both
confirmed, sends succeeding. -/
def inpC3 : CycleInput :=
  { scanOk := true
    utxos := [RawUtxo.ok "a" 0 100000 3, RawUtxo.ok "a" 1 100000 3]
    feeSamples := fun _ => none
    sendOk := fun _ => true }

/-- Cycle input where the fee service fails but the output is still
forwarded with the default fee. -/
def inpC7 : CycleInput :=
  { scanOk := true
    utxos := [RawUtxo.ok "b" 0 500000 5]
    feeSamples := fun _ => none
    sendOk := fun _ => true }

/-- Cycle input whose refresh fails before any output is seen. -/
def inpBad : CycleInput :=
  { scanOk := false
    utxos := []
    feeSamples := fun _ => none
    sendOk := fun _ => false }

/-! ### Fee policy lemmas -/

lemma computeFee_bounds (q : ℚ) :
    1000 ≤ computeFeeFromRate q ∧ computeFeeFromRate q ≤ 25000 := by
  unfold computeFeeFromRate
  constructor
  · exact le_max_right _ _
  · apply max_le
    · split <;> omega
    · omega

lemma calcFee_bounds (s : Option ℚ) :
    1000 ≤ calculate_transaction_fee s ∧ calculate_transaction_fee s ≤ 25000 := by
  cases s with
  | none => constructor <;> norm_num [calculate_transaction_fee]
  | some q =>
    have h := computeFee_bounds q
    simpa [calculate_transaction_fee] using h

/-! ### Claim theorems: fee policy and forwarding decision -/

/-- Claim C4: the forwarding decision returns forward with amount
exactly value minus fee iff value exceeds fee, returns skipTooSmall iff
value is at most fee, and the forwarded amount is strictly positive on
every forward path. -/
theorem C4_decision_correctness (value fee : Int) :
    (decideForward value fee = Decision.forward (value - fee) ↔ value > fee) ∧
    (decideForward value fee = Decision.skipTooSmall ↔ value ≤ fee) ∧
    (∀ amount, decideForward value fee = Decision.forward amount →
      amount = value - fee ∧ 0 < amount) := by
  unfold decideForward
  refine ⟨?_, ?_, ?_⟩
  · constructor
    · intro h
      by_contra hc
      rw [if_neg hc] at h
      exact Decision.noConfusion h
    · intro h
      rw [if_pos h]
  · constructor
    · intro h
      by_contra hc
      rw [if_pos (by omega : value > fee)] at h
      exact Decision.noConfusion h
    · intro h
      rw [if_neg (by omega : ¬ value > fee)]
  · intro amount h
    split at h
    · cases h
      constructor
      · rfl
      · omega
    · exact Decision.noConfusion h

/-- Witness for C4 at value 100000 and fee 2000. -/
theorem C4_decision_correctness_witness :
    (98000 : Int) = 100000 - 2000 ∧ (0 : Int) < 98000 :=
  (C4_decision_correctness 100000 2000).2.2 98000 (by decide)

/-- Claim C5: for every raw fee-rate sample, including zero, negative
and absurdly large ones, and also when the sample could not be obtained,
the computed fee is an integer in the closed interval from 1000 to 25000
satoshis. -/
theorem C5_fee_bounds (q : ℚ) (s : Option ℚ) :
    (1000 ≤ computeFeeFromRate q ∧ computeFeeFromRate q ≤ 25000) ∧
    (1000 ≤ calculate_transaction_fee s ∧ calculate_transaction_fee s ≤ 25000) :=
  ⟨computeFee_bounds q, calcFee_bounds s⟩

/-- Claim C6: a raw sample above the 0.1 BTC/KB ceiling is replaced by
the fallback rate 0.0001 before conversion, so any absurdly high sample
yields exactly the fee obtained by converting the fallback rate, and
that fee is at most 25000. -/
theorem C6_high_sample_uses_fallback (q : ℚ) (h : q > 1/10) :
    computeFeeFromRate q = computeFeeFromRate (1/10000) ∧
    computeFeeFromRate q ≤ 25000 := by
  have hq : computeFeeFromRate q = computeFeeFromRate (1/10000) := by
    unfold computeFeeFromRate
    rw [if_pos h, if_neg (by norm_num)]
  exact ⟨hq, (computeFee_bounds q).2⟩

/-- Witness for C6 at the raw sample 0.5 BTC/KB of scenario C. -/
theorem C6_high_sample_uses_fallback_witness :
    computeFeeFromRate (1/2) = computeFeeFromRate (1/10000) ∧
    computeFeeFromRate (1/2) ≤ 25000 :=
  C6_high_sample_uses_fallback (1/2) (by norm_num)

/-- Claim C7: when the fee service fails the fee computation returns the
fixed default of 10000 satoshis instead of propagating the error, and a
confirmed output is still forwarded in the same cycle using that
default. -/
theorem C7_fee_failure_returns_default :
    calculate_transaction_fee none = 10000 ∧
    (runCycle 3 initState inpC7).events =
      [Event.feeQuote 10000, Event.send "b" 0 490000 10000 true,
       Event.record "b"] := by
  constructor
  · rfl
  · decide

/-- Claim C1 (code bug witness): with one confirmed output whose send
attempt fails, the loop still adds the transaction id to processed_txs
(line 166 runs regardless of the result of forward_funds, which catches
its own exceptions and returns None), so a second identical cycle makes
no retry and no further send: the trace of cycle one shows the failed
send followed by a ledger record, and cycle two changes nothing. -/
theorem C1_failed_send_still_recorded :
    (runCycle 3 initState inpC1).events =
      [Event.feeQuote 10000, Event.send "a" 0 90000 10000 false,
       Event.record "a"] ∧
    "a" ∈ (runCycle 3 initState inpC1).processed ∧
    runCycle 3 (runCycle 3 initState inpC1) inpC1 = runCycle 3 initState inpC1 := by
  refine ⟨by decide, by decide, by decide⟩

/-! ### Counting helpers -/

@[simp] lemma isSendTx_feeQuote (t : String) (f : Int) :
    isSendTx t (Event.feeQuote f) = false := rfl

@[simp] lemma isSendTx_send (t t1 : String) (v : ℕ) (am f : Int) (o : Bool) :
    isSendTx t (Event.send t1 v am f o) = (t1 == t) := rfl

@[simp] lemma isSendTx_record (t t1 : String) :
    isSendTx t (Event.record t1) = false := rfl

@[simp] lemma isSendTx_skipSmall (t t1 : String) :
    isSendTx t (Event.skipSmall t1) = false := rfl

@[simp] lemma isSendTx_cycleError (t : String) :
    isSendTx t Event.cycleError = false := rfl

@[simp] lemma isRecordTx_feeQuote (t : String) (f : Int) :
    isRecordTx t (Event.feeQuote f) = false := rfl

@[simp] lemma isRecordTx_send (t t1 : String) (v : ℕ) (am f : Int) (o : Bool) :
    isRecordTx t (Event.send t1 v am f o) = false := rfl

@[simp] lemma isRecordTx_record (t t1 : String) :
    isRecordTx t (Event.record t1) = (t1 == t) := rfl

@[simp] lemma isRecordTx_skipSmall (t t1 : String) :
    isRecordTx t (Event.skipSmall t1) = false := rfl

@[simp] lemma isRecordTx_cycleError (t : String) :
    isRecordTx t Event.cycleError = false := rfl

/-! ### Equations for the loop body -/

lemma stepUtxo_malformed (required : Int) (feeS : ℕ → Option ℚ)
    (sendS : ℕ → Bool) (a : CycleAcc) :
    stepUtxo required feeS sendS a RawUtxo.malformed = Except.error a := rfl

lemma stepUtxo_mem {required : Int} {feeS : ℕ → Option ℚ} {sendS : ℕ → Bool}
    {a : CycleAcc} {txid : String} {vout : ℕ} {value conf : Int}
    (h1 : txid ∈ a.processed) :
    stepUtxo required feeS sendS a (RawUtxo.ok txid vout value conf) =
      Except.ok a := by
  simp only [stepUtxo]
  rw [if_pos h1]

lemma stepUtxo_low {required : Int} {feeS : ℕ → Option ℚ} {sendS : ℕ → Bool}
    {a : CycleAcc} {txid : String} {vout : ℕ} {value conf : Int}
    (h1 : txid ∉ a.processed) (h2 : ¬ conf ≥ required) :
    stepUtxo required feeS sendS a (RawUtxo.ok txid vout value conf) =
      Except.ok a := by
  simp only [stepUtxo]
  rw [if_neg h1, if_neg h2]

lemma stepUtxo_forward {required : Int} {feeS : ℕ → Option ℚ}
    {sendS : ℕ → Bool} {a : CycleAcc} {txid : String} {vout : ℕ}
    {value conf amount : Int}
    (h1 : txid ∉ a.processed) (h2 : conf ≥ required)
    (hd : decideForward value (calculate_transaction_fee (feeS a.feeIdx)) =
      Decision.forward amount) :
    stepUtxo required feeS sendS a (RawUtxo.ok txid vout value conf) =
      Except.ok ⟨txid :: a.processed,
        a.events ++ [Event.feeQuote (calculate_transaction_fee (feeS a.feeIdx))]
          ++ [Event.send txid vout amount
                (calculate_transaction_fee (feeS a.feeIdx)) (sendS a.sendIdx)]
          ++ [Event.record txid],
        a.feeIdx + 1, a.sendIdx + 1⟩ := by
  simp only [stepUtxo]
  rw [if_neg h1, if_pos h2, hd]

lemma stepUtxo_skip {required : Int} {feeS : ℕ → Option ℚ}
    {sendS : ℕ → Bool} {a : CycleAcc} {txid : String} {vout : ℕ}
    {value conf : Int}
    (h1 : txid ∉ a.processed) (h2 : conf ≥ required)
    (hd : decideForward value (calculate_transaction_fee (feeS a.feeIdx)) =
      Decision.skipTooSmall) :
    stepUtxo required feeS sendS a (RawUtxo.ok txid vout value conf) =
      Except.ok ⟨txid :: a.processed,
        a.events ++ [Event.feeQuote (calculate_transaction_fee (feeS a.feeIdx))]
          ++ [Event.skipSmall txid, Event.record txid],
        a.feeIdx + 1, a.sendIdx⟩ := by
  simp only [stepUtxo]
  rw [if_neg h1, if_pos h2, hd]

lemma stepUtxo_ok_shape (required : Int) (feeS : ℕ → Option ℚ)
    (sendS : ℕ → Bool) (a : CycleAcc) (txid : String) (vout : ℕ)
    (value conf : Int) :
    ∃ a2, stepUtxo required feeS sendS a (RawUtxo.ok txid vout value conf) =
      Except.ok a2 := by
  by_cases h1 : txid ∈ a.processed
  · exact ⟨a, stepUtxo_mem h1⟩
  · by_cases h2 : conf ≥ required
    · cases hd : decideForward value (calculate_transaction_fee (feeS a.feeIdx)) with
      | forward amount => exact ⟨_, stepUtxo_forward h1 h2 hd⟩
      | skipTooSmall => exact ⟨_, stepUtxo_skip h1 h2 hd⟩
    · exact ⟨a, stepUtxo_low h1 h2⟩

/-! ### The ledger invariant is preserved by the loop -/

@[simp] lemma countP_sendTx_one_feeQuote (t : String) (f : Int) :
    List.countP (isSendTx t) [Event.feeQuote f] = 0 := by
  simp [List.countP_cons, List.countP_nil]

@[simp] lemma countP_sendTx_one_send (t t1 : String) (v : ℕ) (am f : Int) (o : Bool) :
    List.countP (isSendTx t) [Event.send t1 v am f o] = if t1 = t then 1 else 0 := by
  by_cases h : t1 = t <;> simp [List.countP_cons, List.countP_nil, h]

@[simp] lemma countP_sendTx_one_record (t t1 : String) :
    List.countP (isSendTx t) [Event.record t1] = 0 := by
  simp [List.countP_cons, List.countP_nil]

@[simp] lemma countP_sendTx_skip_record (t t1 t2 : String) :
    List.countP (isSendTx t) [Event.skipSmall t1, Event.record t2] = 0 := by
  simp [List.countP_cons, List.countP_nil]

@[simp] lemma countP_sendTx_one_cycleError (t : String) :
    List.countP (isSendTx t) [Event.cycleError] = 0 := by
  simp [List.countP_cons, List.countP_nil]

@[simp] lemma countP_recordTx_one_feeQuote (t : String) (f : Int) :
    List.countP (isRecordTx t) [Event.feeQuote f] = 0 := by
  simp [List.countP_cons, List.countP_nil]

@[simp] lemma countP_recordTx_one_send (t t1 : String) (v : ℕ) (am f : Int) (o : Bool) :
    List.countP (isRecordTx t) [Event.send t1 v am f o] = 0 := by
  simp [List.countP_cons, List.countP_nil]

@[simp] lemma countP_recordTx_one_record (t t1 : String) :
    List.countP (isRecordTx t) [Event.record t1] = if t1 = t then 1 else 0 := by
  by_cases h : t1 = t <;> simp [List.countP_cons, List.countP_nil, h]

@[simp] lemma countP_recordTx_skip_record (t t1 t2 : String) :
    List.countP (isRecordTx t) [Event.skipSmall t1, Event.record t2] =
      if t2 = t then 1 else 0 := by
  by_cases h : t2 = t <;> simp [List.countP_cons, List.countP_nil, h]

@[simp] lemma countP_recordTx_one_cycleError (t : String) :
    List.countP (isRecordTx t) [Event.cycleError] = 0 := by
  simp [List.countP_cons, List.countP_nil]

lemma stepUtxo_inv (required : Int) (feeS : ℕ → Option ℚ) (sendS : ℕ → Bool)
    (E : List Event) (a : CycleAcc) (u : RawUtxo)
    (h : LedgerInv a.processed (E ++ a.events)) :
    LedgerInv (accOf (stepUtxo required feeS sendS a u)).processed
      (E ++ (accOf (stepUtxo required feeS sendS a u)).events) := by
  cases u with
  | malformed => simpa [stepUtxo_malformed, accOf] using h
  | ok txid vout value conf =>
    by_cases h1 : txid ∈ a.processed
    · rw [stepUtxo_mem h1]
      simpa [accOf] using h
    · by_cases h2 : conf ≥ required
      · cases hd : decideForward value (calculate_transaction_fee (feeS a.feeIdx)) with
        | forward amount =>
          rw [stepUtxo_forward h1 h2 hd]
          simp only [accOf]
          intro t
          obtain ⟨ht1, ht2, ht3, ht4⟩ := h t
          simp only [List.countP_append] at ht1 ht2 ht3 ht4
          by_cases he : txid = t
          · subst he
            have hs0 : List.countP (isSendTx txid) E +
                List.countP (isSendTx txid) a.events = 0 := by
              by_contra hc
              exact h1 (ht3 (by omega))
            have hr0 : List.countP (isRecordTx txid) E +
                List.countP (isRecordTx txid) a.events = 0 := by
              by_contra hc
              exact h1 (ht4 (by omega))
            refine ⟨?_, ?_, fun _ => List.mem_cons_self _ _,
              fun _ => List.mem_cons_self _ _⟩
            · simp [List.countP_append]
              omega
            · simp [List.countP_append]
              omega
          · refine ⟨?_, ?_, ?_, ?_⟩
            · simp [List.countP_append, he]
              omega
            · simp [List.countP_append, he]
              omega
            · intro hc
              simp [List.countP_append, he] at hc
              exact List.mem_cons_of_mem _ (ht3 (by omega))
            · intro hc
              simp [List.countP_append, he] at hc
              exact List.mem_cons_of_mem _ (ht4 (by omega))
        | skipTooSmall =>
          rw [stepUtxo_skip h1 h2 hd]
          simp only [accOf]
          intro t
          obtain ⟨ht1, ht2, ht3, ht4⟩ := h t
          simp only [List.countP_append] at ht1 ht2 ht3 ht4
          by_cases he : txid = t
          · subst he
            have hr0 : List.countP (isRecordTx txid) E +
                List.countP (isRecordTx txid) a.events = 0 := by
              by_contra hc
              exact h1 (ht4 (by omega))
            refine ⟨?_, ?_, fun _ => List.mem_cons_self _ _,
              fun _ => List.mem_cons_self _ _⟩
            · simp [List.countP_append]
              omega
            · simp [List.countP_append]
              omega
          · refine ⟨?_, ?_, ?_, ?_⟩
            · simp [List.countP_append, he]
              omega
            · simp [List.countP_append, he]
              omega
            · intro hc
              simp [List.countP_append, he] at hc
              exact List.mem_cons_of_mem _ (ht3 (by omega))
            · intro hc
              simp [List.countP_append, he] at hc
              exact List.mem_cons_of_mem _ (ht4 (by omega))
      · rw [stepUtxo_low h1 h2]
        simpa [accOf] using h

lemma foldUtxos_inv (required : Int) (feeS : ℕ → Option ℚ) (sendS : ℕ → Bool)
    (E : List Event) :
    ∀ (us : List RawUtxo) (a : CycleAcc),
      LedgerInv a.processed (E ++ a.events) →
      LedgerInv (accOf (foldUtxos required feeS sendS a us)).processed
        (E ++ (accOf (foldUtxos required feeS sendS a us)).events) := by
  intro us
  induction us with
  | nil =>
    intro a h
    simpa [foldUtxos, accOf] using h
  | cons u us ih =>
    intro a h
    have hstep := stepUtxo_inv required feeS sendS E a u h
    cases hs : stepUtxo required feeS sendS a u with
    | ok a2 =>
      rw [hs] at hstep
      simp only [accOf] at hstep
      have hrec := ih a2 hstep
      simpa [foldUtxos, hs] using hrec
    | error a2 =>
      rw [hs] at hstep
      simp only [accOf] at hstep
      simpa [foldUtxos, hs, accOf] using hstep

lemma ledgerInv_cycleError (P : List String) (es : List Event)
    (h : LedgerInv P es) : LedgerInv P (es ++ [Event.cycleError]) := by
  intro t
  obtain ⟨h1, h2, h3, h4⟩ := h t
  refine ⟨?_, ?_, ?_, ?_⟩
  · simpa [List.countP_append] using h1
  · simpa [List.countP_append] using h2
  · intro hc
    exact h3 (by simpa [List.countP_append] using hc)
  · intro hc
    exact h4 (by simpa [List.countP_append] using hc)

lemma runCycle_inv (required : Int) (st : MonState) (inp : CycleInput)
    (h : LedgerInv st.processed st.events) :
    LedgerInv (runCycle required st inp).processed
      (runCycle required st inp).events := by
  unfold runCycle
  by_cases hscan : inp.scanOk
  · rw [if_pos hscan]
    have h0 : LedgerInv (⟨st.processed, [], 0, 0⟩ : CycleAcc).processed
        (st.events ++ (⟨st.processed, [], 0, 0⟩ : CycleAcc).events) := by
      simpa using h
    have hf := foldUtxos_inv required inp.feeSamples inp.sendOk st.events
      inp.utxos ⟨st.processed, [], 0, 0⟩ h0
    cases hfold : foldUtxos required inp.feeSamples inp.sendOk
        ⟨st.processed, [], 0, 0⟩ inp.utxos with
    | ok a =>
      rw [hfold] at hf
      simpa [accOf] using hf
    | error a =>
      rw [hfold] at hf
      simp only [accOf] at hf
      exact ledgerInv_cycleError _ _ hf
  · rw [if_neg hscan]
    exact ledgerInv_cycleError _ _ h

lemma runMonitor_inv (required : Int) :
    ∀ (cs : List CycleInput) (st : MonState),
      LedgerInv st.processed st.events →
      LedgerInv (runMonitor required st cs).processed
        (runMonitor required st cs).events := by
  intro cs
  induction cs with
  | nil =>
    intro st h
    simpa [runMonitor] using h
  | cons c cs ih =>
    intro st h
    simpa [runMonitor] using ih _ (runCycle_inv required st c h)

lemma ledgerInv_init : LedgerInv initState.processed initState.events := by
  intro t
  simp [initState, List.countP_nil]

/-! ### Monotonicity and reachability of the processed set -/

lemma stepUtxo_processed_mono (required : Int) (feeS : ℕ → Option ℚ)
    (sendS : ℕ → Bool) (a : CycleAcc) (u : RawUtxo) :
    a.processed ⊆ (accOf (stepUtxo required feeS sendS a u)).processed := by
  cases u with
  | malformed =>
    rw [stepUtxo_malformed]
    simp [accOf]
  | ok txid vout value conf =>
    by_cases h1 : txid ∈ a.processed
    · rw [stepUtxo_mem h1]
      simp [accOf]
    · by_cases h2 : conf ≥ required
      · cases hd : decideForward value (calculate_transaction_fee (feeS a.feeIdx)) with
        | forward amount =>
          rw [stepUtxo_forward h1 h2 hd]
          simp only [accOf]
          exact List.subset_cons_self _ _
        | skipTooSmall =>
          rw [stepUtxo_skip h1 h2 hd]
          simp only [accOf]
          exact List.subset_cons_self _ _
      · rw [stepUtxo_low h1 h2]
        simp [accOf]

lemma foldUtxos_processed_mono (required : Int) (feeS : ℕ → Option ℚ)
    (sendS : ℕ → Bool) :
    ∀ (us : List RawUtxo) (a : CycleAcc),
      a.processed ⊆ (accOf (foldUtxos required feeS sendS a us)).processed := by
  intro us
  induction us with
  | nil =>
    intro a
    simp [foldUtxos, accOf]
  | cons u us ih =>
    intro a
    have hm := stepUtxo_processed_mono required feeS sendS a u
    cases hs : stepUtxo required feeS sendS a u with
    | ok a2 =>
      rw [hs] at hm
      simp only [accOf] at hm
      refine hm.trans ?_
      simpa [foldUtxos, hs] using ih a2
    | error a2 =>
      rw [hs] at hm
      simp only [accOf] at hm
      simpa [foldUtxos, hs, accOf] using hm

lemma stepUtxo_adds (required : Int) (feeS : ℕ → Option ℚ) (sendS : ℕ → Bool)
    (a : CycleAcc) (txid : String) (vout : ℕ) (value conf : Int)
    (h2 : conf ≥ required) :
    txid ∈ (accOf (stepUtxo required feeS sendS a
      (RawUtxo.ok txid vout value conf))).processed := by
  by_cases h1 : txid ∈ a.processed
  · rw [stepUtxo_mem h1]
    simpa [accOf] using h1
  · cases hd : decideForward value (calculate_transaction_fee (feeS a.feeIdx)) with
    | forward amount =>
      rw [stepUtxo_forward h1 h2 hd]
      simp [accOf]
    | skipTooSmall =>
      rw [stepUtxo_skip h1 h2 hd]
      simp [accOf]

lemma foldUtxos_adds (required : Int) (feeS : ℕ → Option ℚ) (sendS : ℕ → Bool)
    (txid : String) (vout : ℕ) (value conf : Int) (h4 : conf ≥ required) :
    ∀ (us : List RawUtxo) (a : CycleAcc),
      (∀ u ∈ us, u ≠ RawUtxo.malformed) →
      RawUtxo.ok txid vout value conf ∈ us →
      txid ∈ (accOf (foldUtxos required feeS sendS a us)).processed := by
  intro us
  induction us with
  | nil =>
    intro a hclean hmem
    cases hmem
  | cons u us ih =>
    intro a hclean hmem
    have hu : u ≠ RawUtxo.malformed := hclean u (List.mem_cons_self u us)
    cases u with
    | malformed => exact absurd rfl hu
    | ok t1 v1 val1 c1 =>
      obtain ⟨a2, hs⟩ := stepUtxo_ok_shape required feeS sendS a t1 v1 val1 c1
      rcases List.mem_cons.mp hmem with heq | htail
      · injection heq with e1 e2 e3 e4
        subst e1
        subst e2
        subst e3
        subst e4
        have hadd := stepUtxo_adds required feeS sendS a txid vout value conf h4
        rw [hs] at hadd
        simp only [accOf] at hadd
        have hmono := foldUtxos_processed_mono required feeS sendS us a2
        have : txid ∈ (accOf (foldUtxos required feeS sendS a2 us)).processed :=
          hmono hadd
        simpa [foldUtxos, hs] using this
      · have hrec := ih a2 (fun w hw => hclean w (List.mem_cons_of_mem _ hw)) htail
        simpa [foldUtxos, hs] using hrec

/-! ### Composition of the fold over the utxo list -/

lemma foldUtxos_append_ok (required : Int) (feeS : ℕ → Option ℚ)
    (sendS : ℕ → Bool) :
    ∀ (l1 : List RawUtxo) (a a2 : CycleAcc) (l2 : List RawUtxo),
      foldUtxos required feeS sendS a l1 = Except.ok a2 →
      foldUtxos required feeS sendS a (l1 ++ l2) =
        foldUtxos required feeS sendS a2 l2 := by
  intro l1
  induction l1 with
  | nil =>
    intro a a2 l2 h
    simp only [foldUtxos] at h
    cases h
    simp [List.nil_append]
  | cons u l1 ih =>
    intro a a2 l2 h
    cases hs : stepUtxo required feeS sendS a u with
    | ok a3 =>
      simp only [foldUtxos, hs] at h
      have := ih a3 a2 l2 h
      simpa [foldUtxos, hs] using this
    | error a3 =>
      simp only [foldUtxos, hs] at h
      simp at h

lemma foldUtxos_clean (required : Int) (feeS : ℕ → Option ℚ) (sendS : ℕ → Bool) :
    ∀ (us : List RawUtxo) (a : CycleAcc), (∀ u ∈ us, u ≠ RawUtxo.malformed) →
      ∃ a2, foldUtxos required feeS sendS a us = Except.ok a2 := by
  intro us
  induction us with
  | nil =>
    intro a hclean
    exact ⟨a, rfl⟩
  | cons u us ih =>
    intro a hclean
    have hu : u ≠ RawUtxo.malformed := hclean u (List.mem_cons_self u us)
    cases u with
    | malformed => exact absurd rfl hu
    | ok t1 v1 val1 c1 =>
      obtain ⟨a2, hs⟩ := stepUtxo_ok_shape required feeS sendS a t1 v1 val1 c1
      obtain ⟨a3, hrec⟩ := ih a2 (fun w hw => hclean w (List.mem_cons_of_mem _ hw))
      refine ⟨a3, ?_⟩
      simpa [foldUtxos, hs] using hrec

lemma foldUtxos_err (required : Int) (feeS : ℕ → Option ℚ) (sendS : ℕ → Bool) :
    ∀ (us : List RawUtxo) (a : CycleAcc), RawUtxo.malformed ∈ us →
      ∃ a2, foldUtxos required feeS sendS a us = Except.error a2 := by
  intro us
  induction us with
  | nil =>
    intro a hmem
    cases hmem
  | cons u us ih =>
    intro a hmem
    cases u with
    | malformed =>
      exact ⟨a, by simp [foldUtxos, stepUtxo_malformed]⟩
    | ok t1 v1 val1 c1 =>
      have htail : RawUtxo.malformed ∈ us := by
        rcases List.mem_cons.mp hmem with heq | htail
        · exact absurd heq (by simp)
        · exact htail
      obtain ⟨a2, hs⟩ := stepUtxo_ok_shape required feeS sendS a t1 v1 val1 c1
      obtain ⟨a3, hrec⟩ := ih a2 htail
      refine ⟨a3, ?_⟩
      simpa [foldUtxos, hs] using hrec

/-! ### Claim theorems: idempotency, gating, error handling -/

/-- Claim C2: across any run of poll cycles from a fresh process state,
the send operation is invoked at most once for any output id, no matter
how often the wallet reports the same output. -/
theorem C2_send_at_most_once (required : Int) (cs : List CycleInput)
    (t : String) (v : ℕ) :
    ((runMonitor required initState cs).events).countP (isSendOut t v) ≤ 1 := by
  have hinv := runMonitor_inv required cs initState ledgerInv_init
  have hmono : ((runMonitor required initState cs).events).countP (isSendOut t v) ≤
      ((runMonitor required initState cs).events).countP (isSendTx t) := by
    apply List.countP_mono_left
    intro e hmem hp
    cases e with
    | send t1 v1 am f o =>
      simp only [isSendOut, Bool.and_eq_true] at hp
      simpa [isSendTx] using hp.1
    | feeQuote f => simp [isSendOut] at hp
    | record t1 => simp [isSendOut] at hp
    | skipSmall t1 => simp [isSendOut] at hp
    | cycleError => simp [isSendOut] at hp
  exact le_trans hmono (hinv t).1

/-- Claim C3 counterexample: two distinct confirmed outputs share one
transaction id; the cycle evaluates only the first of them, producing a
single send and a single ledger record; the output with index 1 never
gets a send or a record of its own, in this cycle or any later one, so
the ledger is not keyed by the pair of transaction id and output index
and the second output is never terminally classified. -/
theorem C3_counterexample :
    (runCycle 3 initState inpC3).events =
      [Event.feeQuote 10000, Event.send "a" 0 90000 10000 true,
       Event.record "a"] ∧
    ((runCycle 3 initState inpC3).events).countP (isSendOut "a" 1) = 0 ∧
    ((runCycle 3 initState inpC3).events).countP (isRecordTx "a") = 1 ∧
    runCycle 3 (runCycle 3 initState inpC3) inpC3 = runCycle 3 initState inpC3 := by
  refine ⟨by decide, by decide, by decide, by decide⟩

/-- Claim C3 (amended): the Idempotency Ledger is keyed by the
transaction id alone; at most one ledger record is ever written per
transaction id over any run, and in any cycle whose refresh succeeds and
whose outputs are all well formed, every output meeting the confirmation
threshold has its transaction id in the ledger when the cycle ends. -/
theorem C3_ledger_keyed_by_txid (required : Int) (cs : List CycleInput)
    (t : String) (st : MonState) (inp : CycleInput) (txid : String)
    (vout : ℕ) (value conf : Int)
    (h1 : inp.scanOk = true)
    (h2 : ∀ u ∈ inp.utxos, u ≠ RawUtxo.malformed)
    (h3 : RawUtxo.ok txid vout value conf ∈ inp.utxos)
    (h4 : conf ≥ required) :
    ((runMonitor required initState cs).events).countP (isRecordTx t) ≤ 1 ∧
    txid ∈ (runCycle required st inp).processed := by
  constructor
  · exact ((runMonitor_inv required cs initState ledgerInv_init) t).2.1
  · have hadd := foldUtxos_adds required inp.feeSamples inp.sendOk txid vout
      value conf h4 inp.utxos ⟨st.processed, [], 0, 0⟩ h2 h3
    unfold runCycle
    rw [if_pos h1]
    cases hfold : foldUtxos required inp.feeSamples inp.sendOk
        ⟨st.processed, [], 0, 0⟩ inp.utxos with
    | ok a =>
      rw [hfold] at hadd
      simpa [accOf] using hadd
    | error a =>
      rw [hfold] at hadd
      simpa [accOf] using hadd

/-- Witness for the amended C3: concrete run over the two-output cycle. -/
theorem C3_ledger_keyed_by_txid_witness :
    ((runMonitor 3 initState [inpC3]).events).countP (isRecordTx "a") ≤ 1 ∧
    "a" ∈ (runCycle 3 initState inpC3).processed :=
  C3_ledger_keyed_by_txid 3 [inpC3] "a" initState inpC3 "a" 0 100000 3
    (by decide) (by decide) (by decide) (by decide)

/-- Claim C8: an output below the confirmation threshold whose id is not
yet recorded causes no action at all in that cycle: the loop body leaves
the accumulator unchanged, so no fee quote is requested, no send is
attempted and no ledger record is written, and the output stays eligible
for the next poll. -/
theorem C8_confirmation_gating (required : Int) (feeS : ℕ → Option ℚ)
    (sendS : ℕ → Bool) (a : CycleAcc) (txid : String) (vout : ℕ)
    (value conf : Int)
    (h1 : txid ∉ a.processed) (h2 : conf < required) :
    stepUtxo required feeS sendS a (RawUtxo.ok txid vout value conf) =
      Except.ok a :=
  stepUtxo_low h1 (by omega)

/-- Witness for C8: one confirmation observed while three are required. -/
theorem C8_confirmation_gating_witness :
    stepUtxo 3 (fun _ => none) (fun _ => true) ⟨[], [], 0, 0⟩
      (RawUtxo.ok "c" 0 100000 1) = Except.ok ⟨[], [], 0, 0⟩ :=
  C8_confirmation_gating 3 (fun _ => none) (fun _ => true) ⟨[], [], 0, 0⟩
    "c" 0 100000 1 (by decide) (by decide)

/-- Claim C9: a cycle whose refresh fails, or which contains an output
whose extraction raises, ends with the handler logging the error, and
the monitor then continues with the remaining cycles unchanged. -/
theorem C9_bad_cycle_caught_and_continues (required : Int) (st : MonState)
    (inp : CycleInput) (cs : List CycleInput)
    (h : inp.scanOk = false ∨ RawUtxo.malformed ∈ inp.utxos) :
    (∃ tr, (runCycle required st inp).events =
      st.events ++ tr ++ [Event.cycleError]) ∧
    runMonitor required st (inp :: cs) =
      runMonitor required (runCycle required st inp) cs := by
  refine ⟨?_, rfl⟩
  by_cases hscan : inp.scanOk
  · rcases h with h | h
    · simp [h] at hscan
    · obtain ⟨a2, hf⟩ := foldUtxos_err required inp.feeSamples inp.sendOk
        inp.utxos ⟨st.processed, [], 0, 0⟩ h
      refine ⟨a2.events, ?_⟩
      unfold runCycle
      rw [if_pos hscan, hf]
  · refine ⟨[], ?_⟩
    unfold runCycle
    rw [if_neg hscan]
    simp

/-- Witness for C9: a failed refresh followed by a further cycle. -/
theorem C9_bad_cycle_caught_and_continues_witness :
    (∃ tr, (runCycle 3 initState inpBad).events =
      initState.events ++ tr ++ [Event.cycleError]) ∧
    runMonitor 3 initState (inpBad :: [inpC7]) =
      runMonitor 3 (runCycle 3 initState inpBad) [inpC7] :=
  C9_bad_cycle_caught_and_continues 3 initState inpBad [inpC7] (Or.inl rfl)

/-- Claim C10: when the extraction of one output raises mid-cycle, the
remaining outputs of that cycle are abandoned: the cycle ends in exactly
the state reached by processing only the outputs before the bad one,
plus the logged error, so the abandoned outputs are not recorded and are
re-evaluated only in a later cycle. -/
theorem C10_midcycle_error_abandons_rest (required : Int) (st : MonState)
    (feeS : ℕ → Option ℚ) (sendS : ℕ → Bool) (pre post : List RawUtxo)
    (h : ∀ u ∈ pre, u ≠ RawUtxo.malformed) :
    runCycle required st ⟨true, pre ++ RawUtxo.malformed :: post, feeS, sendS⟩ =
      ⟨(runCycle required st ⟨true, pre, feeS, sendS⟩).processed,
       (runCycle required st ⟨true, pre, feeS, sendS⟩).events
         ++ [Event.cycleError]⟩ := by
  obtain ⟨a1, hpre⟩ := foldUtxos_clean required feeS sendS pre
    ⟨st.processed, [], 0, 0⟩ h
  have herr : foldUtxos required feeS sendS ⟨st.processed, [], 0, 0⟩
      (pre ++ RawUtxo.malformed :: post) = Except.error a1 := by
    rw [foldUtxos_append_ok required feeS sendS pre _ a1 _ hpre]
    simp [foldUtxos, stepUtxo_malformed]
  unfold runCycle
  simp [herr, hpre]

/-- Witness for C10: a well-formed output, then a malformed one, then a
further well-formed output that is abandoned. -/
theorem C10_midcycle_error_abandons_rest_witness :
    runCycle 3 initState ⟨true,
        [RawUtxo.ok "a" 0 100000 3] ++ RawUtxo.malformed ::
          [RawUtxo.ok "b" 0 100000 3],
        (fun _ => none), (fun _ => true)⟩ =
      ⟨(runCycle 3 initState ⟨true, [RawUtxo.ok "a" 0 100000 3],
          (fun _ => none), (fun _ => true)⟩).processed,
       (runCycle 3 initState ⟨true, [RawUtxo.ok "a" 0 100000 3],
          (fun _ => none), (fun _ => true)⟩).events
         ++ [Event.cycleError]⟩ :=
  C10_midcycle_error_abandons_rest 3 initState (fun _ => none) (fun _ => true)
    [RawUtxo.ok "a" 0 100000 3] [RawUtxo.ok "b" 0 100000 3] (by decide)

end BtcForwarder
